import Mathlib

/-!
Shallow embedding of the Akumuli storage core (src/page.cpp, src/storage.cpp,
src/cursor.h) in Lean 4.

Machine integers are modelled as `Nat` / `Int` with explicit reductions
modulo `2^32` / `2^64` at the points where the C++ code performs unsigned
wraparound or integer conversions.  Signed 64-bit quantities (timestamps,
interpolation arithmetic) are modelled as `Int`; C++ integer division
(truncation toward zero) is `Int.tdiv`, and `x % m` on `Int` (Euclidean, a
nonnegative result for a positive modulus) gives the two's-complement bit
pattern used for signed-to-unsigned conversions.

The record heap of a page is abstracted to a map from byte offsets to the
decoded `Entry` stored at that offset (`mem`): a `memcpy` of an entry to
offset `o` updates `mem` at `o`, and `reinterpret_cast<const Entry*>` at
any offset is a total read of `mem`.  The index array `page_index` is
likewise a total map from slot index to `EntryOffset`, so out-of-bounds
slot reads of the C++ code are observable in the model; the search routine
returns a trace recording every slot index it reads, every (index, offset)
pair it emits through `cursor->put`, and the divisor of every interpolation
division it performs.
-/

namespace Akumuli

/-- Modulus of 32-bit unsigned arithmetic (`uint32_t`). -/
def MOD32 : Nat := 4294967296

/-- Modulus of 64-bit unsigned arithmetic (`size_t`, `uint64_t`). -/
def MOD64 : Nat := 18446744073709551616

/-- Largest signed 64-bit value, `std::numeric_limits<int64_t>::max()`. -/
def INT64_MAX : Int := 9223372036854775807

/-- `uint32_t` addition with wraparound. -/
def add32 (a b : Nat) : Nat := (a + b) % MOD32

/-- `uint32_t` subtraction with wraparound (operands already reduced mod `2^32`). -/
def sub32 (a b : Nat) : Nat := (a % MOD32 + MOD32 - b % MOD32) % MOD32

/-- Conversion `int64_t → uint64_t` / `int → size_t` (two's complement). -/
def toU64 (x : Int) : Nat := (x % (MOD64 : Int)).toNat

/-- Conversion `int64_t → uint32_t` (reduction modulo `2^32`). -/
def toU32 (x : Int) : Nat := (x % (MOD32 : Int)).toNat

/-- page.cpp:53 `TimeStamp::MAX_TIMESTAMP = {std::numeric_limits<int64_t>::max()}`. -/
def TimeStamp.MAX_TIMESTAMP : Int := INT64_MAX

/-- page.cpp:55 `TimeStamp::MIN_TIMESTAMP = {0L}`. -/
def TimeStamp.MIN_TIMESTAMP : Int := 0

/-- Modelled from the spec: `sizeof(EntryOffset)`; page.h is not under src/,
the spec fixes EntryOffset as a 32-bit byte offset. -/
def sizeofEntryOffset : Nat := 4

/-- Modelled from the spec: `sizeof(Entry)`, the fixed record header; page.h is
not under src/, the spec gives the fields `length` (4), `param_id` (4),
`timestamp` (8). -/
def sizeofEntry : Nat := 16

/-- Modelled from the spec: byte offset of the `page_index` array inside the
page, i.e. the size of the fixed `PageHeader` prefix; page.h is not under
src/. The claims do not depend on the concrete value. -/
def pageHeaderSize : Nat := 64

/-- Modelled from the spec: `AKU_INTERPOLATION_SEARCH_CUTOFF` from
akumuli_def.h (not under src/); the spec calls it "a fixed cutoff (design
constant, e.g. 64)". -/
def AKU_INTERPOLATION_SEARCH_CUTOFF : Nat := 64

/-- Modelled from the spec: `AKU_CURSOR_DIR_FORWARD` from akumuli_def.h (not
under src/); only its distinctness from the backward constant matters. -/
def AKU_CURSOR_DIR_FORWARD : Nat := 0

/-- Modelled from the spec: `AKU_CURSOR_DIR_BACKWARD` from akumuli_def.h (not
under src/). -/
def AKU_CURSOR_DIR_BACKWARD : Nat := 1

/-- Write-path status codes (`AKU_WRITE_STATUS_*` from akumuli_def.h). -/
inductive WriteStatus where
  | success
  | overflow
  | badData
deriving DecidableEq, Repr

/-- A decoded variable-length record (page.cpp:59-75): `param_id : uint32_t`,
`time : int64_t`, `length : uint32_t` (total record bytes incl. header). -/
structure EntryV where
  param_id : Nat
  time : Int
  length : Nat
deriving DecidableEq, Repr

/-- page.cpp:95-107 `SingleParameterSearchQuery`. -/
structure QueryV where
  param : Nat
  lowerbound : Int
  upperbound : Int
  direction : Nat
deriving DecidableEq, Repr

/-- page.cpp:116-122 `PageBoundingBox` with its constructor values:
`max_id = 0`, `min_id = uint32 max`, `max_timestamp = MIN_TIMESTAMP (0)`,
`min_timestamp = MAX_TIMESTAMP (int64 max)`. -/
structure PageBoundingBox where
  max_id : Nat
  min_id : Nat
  max_timestamp : Int
  min_timestamp : Int
deriving DecidableEq, Repr

/-- The inverted initial bounding box (page.cpp:116-122). -/
def PageBoundingBox.init : PageBoundingBox :=
  { max_id := 0
  , min_id := MOD32 - 1
  , max_timestamp := TimeStamp.MIN_TIMESTAMP
  , min_timestamp := TimeStamp.MAX_TIMESTAMP }

/-- The mutable state of a page: the fixed `PageHeader` fields plus the two
abstracted memory regions (`page_index` slots and the decoded record heap). -/
structure PageHeader where
  count : Nat
  last_offset : Nat
  sync_index : Nat
  length : Nat
  open_count : Nat
  close_count : Nat
  page_id : Nat
  bbox : PageBoundingBox
  page_index : Nat → Nat
  mem : Nat → EntryV

/-- page.cpp:133-144 `PageHeader::PageHeader(type, count, length, page_id)`
with `count = 0` (the only count the callers in src/ pass): `last_offset =
length - 1`, `sync_index = 0`, counters zero, inverted bbox.  The two memory
maps start as arbitrary garbage, here all-zero. -/
def mkPageHeader (len : Nat) (page_id : Nat) : PageHeader :=
  { count := 0
  , last_offset := len - 1
  , sync_index := 0
  , length := len
  , open_count := 0
  , close_count := 0
  , page_id := page_id
  , bbox := PageBoundingBox.init
  , page_index := fun _ => 0
  , mem := fun _ => ⟨0, 0, 0⟩ }

/-- page.cpp:150-155 `PageHeader::get_free_space`: distance from the end of
the index array (`page_index + count`) to `cdata() + last_offset`.  The C++
return type is `int`; for real pages (≤ 4 MiB) the value fits, so no
truncation is modelled. -/
def PageHeader.get_free_space (p : PageHeader) : Int :=
  (p.last_offset : Int) - (pageHeaderSize + sizeofEntryOffset * p.count)

/-- page.cpp:157-170 `PageHeader::update_bounding_box`, four independent
signed comparisons. -/
def update_bounding_box (b : PageBoundingBox) (param : Nat) (time : Int) :
    PageBoundingBox :=
  let b := if param > b.max_id then { b with max_id := param } else b
  let b := if param < b.min_id then { b with min_id := param } else b
  let b := if time > b.max_timestamp then { b with max_timestamp := time } else b
  let b := if time < b.min_timestamp then { b with min_timestamp := time } else b
  b

/-- Containment of a `(param, time)` pair in a bounding box (the body of
page.cpp:172-177). -/
def bboxContains (b : PageBoundingBox) (param : Nat) (time : Int) : Bool :=
  decide (time ≤ b.max_timestamp) && decide (time ≥ b.min_timestamp)
    && decide (param ≤ b.max_id) && decide (param ≥ b.min_id)

/-- page.cpp:172-177 `PageHeader::inside_bbox`. -/
def PageHeader.inside_bbox (p : PageHeader) (param : Nat) (time : Int) : Bool :=
  bboxContains p.bbox param time

/-- page.cpp:179-184 `PageHeader::reuse`. -/
def PageHeader.reuse (p : PageHeader) : PageHeader :=
  { p with count := 0
         , open_count := p.open_count + 1
         , last_offset := p.length - 1
         , bbox := PageBoundingBox.init }

/-- page.cpp:186-188 `PageHeader::close`. -/
def PageHeader.pageClose (p : PageHeader) : PageHeader :=
  { p with close_count := p.close_count + 1 }

/-- page.cpp:190-207 `PageHeader::add_entry(Entry const&)`.
`space_required = entry.length + sizeof(EntryOffset)` is a `size_t`; the
comparison against `get_free_space()` (an `int`) converts the latter to
`size_t`, which `toU64` models.  On success the record is copied to
`last_offset - entry.length`, the new `last_offset` is written into
`page_index[count]`, `count` is incremented (uint32), and the bounding box
is widened. -/
def PageHeader.add_entry (p : PageHeader) (e : EntryV) : WriteStatus × PageHeader :=
  let space_required := e.length + sizeofEntryOffset
  if e.length < sizeofEntry then
    (WriteStatus.badData, p)
  else if space_required % MOD64 > toU64 p.get_free_space then
    (WriteStatus.overflow, p)
  else
    let free_slot := p.last_offset - e.length
    (WriteStatus.success,
      { p with last_offset := free_slot
             , page_index := Function.update p.page_index p.count free_slot
             , mem := Function.update p.mem free_slot e
             , count := (p.count + 1) % MOD32
             , bbox := update_bounding_box p.bbox e.param_id e.time })

/-- page.cpp:462-467 `PageHeader::sync_indexes`: clamp `num_offsets` so that
`sync_index + num_offsets ≤ count`, copy the offsets into
`page_index[sync_index ..]`, advance `sync_index`. -/
def PageHeader.sync_indexes (p : PageHeader) (offsets : List Nat) : PageHeader :=
  let n := if p.sync_index + offsets.length > p.count
             then p.count - p.sync_index else offsets.length
  { p with
      page_index := fun i =>
        if p.sync_index ≤ i ∧ i < p.sync_index + n then
          offsets.getD (i - p.sync_index) 0
        else p.page_index i
    , sync_index := p.sync_index + n }

/-- page.cpp:456-457: the sort key of the entry at offset `off`:
`std::tuple<uint64_t, uint32_t>(e->time.value, e->param_id)` — note the
timestamp is converted to `uint64_t`. -/
def sortKeyAt (p : PageHeader) (off : Nat) : Nat × Nat :=
  (toU64 (p.mem off).time, (p.mem off).param_id)

/-- page.cpp:453-458: the strict comparator handed to `insertion_sort`
(lexicographic `<` on the uint64/uint32 tuples). -/
def sortLtB (p : PageHeader) (a b : Nat) : Bool :=
  let ka := sortKeyAt p a
  let kb := sortKeyAt p b
  decide (ka.1 < kb.1) || (decide (ka.1 = kb.1) && decide (ka.2 < kb.2))

/-- The offsets currently stored in `page_index[0..count)`. -/
def PageHeader.indexList (p : PageHeader) : List Nat :=
  (List.range p.count).map p.page_index

/-- page.cpp:445-460 `PageHeader::sort`.  Modelled from the spec:
`Akumuli::insertion_sort` (sort.h is not under src/) is "insertion sort
ascending" by the comparator, embedded as the standard stable insertion sort
`List.insertionSort` with the non-strict relation `¬ (b < a)` derived from
the strict comparator of page.cpp:453-458. -/
def PageHeader.sort (p : PageHeader) : PageHeader :=
  let sorted := p.indexList.insertionSort (fun a b => sortLtB p b a = false)
  { p with page_index := fun i =>
      if i < p.count then sorted.getD i 0 else p.page_index i }

/-- Observable trace of one `PageHeader::search` call: every `page_index`
slot read (in order), every `(slot index, offset)` pair passed to
`cursor->put`, the divisor of every interpolation division, and the final
cursor signal. -/
structure SearchTrace where
  reads : List Nat
  puts : List (Nat × Nat)
  divs : List Int
  completed : Bool
  err : Bool
deriving DecidableEq, Repr

/-- page.cpp:291-299 `validate_query`. -/
def validate_query (q : QueryV) : Bool :=
  if (q.direction ≠ AKU_CURSOR_DIR_BACKWARD ∧ q.direction ≠ AKU_CURSOR_DIR_FORWARD)
      ∨ q.upperbound < q.lowerbound
  then false else true

/-- page.cpp:427-441: the forward scan loop (`current_index = probe_index++`,
filter on param and time range, terminate on `time > upperbound` or
`current_index == max_index`).  `fuel` bounds the number of iterations the
model unrolls; exhaustion returns the trace accumulated so far. -/
def scanFwdLoop (p : PageHeader) (q : QueryV) (max_index : Nat) :
    Nat → Nat → SearchTrace → SearchTrace
  | 0, _, tr => tr
  | fuel + 1, probe_index, tr =>
    let current_index := probe_index
    let probe_offset := p.page_index current_index
    let probe_entry := p.mem probe_offset
    let tr := { tr with reads := tr.reads ++ [current_index] }
    let tr :=
      if probe_entry.param_id = q.param ∧
          q.lowerbound ≤ probe_entry.time ∧ q.upperbound ≥ probe_entry.time
      then { tr with puts := tr.puts ++ [(current_index, probe_offset)] }
      else tr
    if probe_entry.time > q.upperbound ∨ current_index = max_index then
      { tr with completed := true }
    else
      scanFwdLoop p q max_index fuel (add32 probe_index 1) tr

/-- page.cpp:411-425: the backward scan loop (`current_index = probe_index--`,
terminate on `time < lowerbound` or `current_index == 0`). -/
def scanBwdLoop (p : PageHeader) (q : QueryV) :
    Nat → Nat → SearchTrace → SearchTrace
  | 0, _, tr => tr
  | fuel + 1, probe_index, tr =>
    let current_index := probe_index
    let probe_offset := p.page_index current_index
    let probe_entry := p.mem probe_offset
    let tr := { tr with reads := tr.reads ++ [current_index] }
    let tr :=
      if probe_entry.param_id = q.param ∧
          q.lowerbound ≤ probe_entry.time ∧ q.upperbound ≥ probe_entry.time
      then { tr with puts := tr.puts ++ [(current_index, probe_offset)] }
      else tr
    if probe_entry.time < q.lowerbound ∨ current_index = 0 then
      { tr with completed := true }
    else
      scanBwdLoop p q fuel (sub32 probe_index 1) tr

/-- page.cpp:388-406: the binary-search loop.  Returns the final
`probe_index` together with the extended trace.  All four exits of the C++
loop are modelled: `probe == key`, `begin == count`, `end == ~0`, and the
loop condition `end >= begin` turning false. -/
def binLoop (p : PageHeader) (key : Int) (count : Nat) :
    Nat → Nat → Nat → Nat → SearchTrace → Nat × SearchTrace
  | 0, _, _, probe_index, tr => (probe_index, tr)
  | fuel + 1, bgn, fin, probe_index, tr =>
    if fin ≥ bgn then
      let pi := add32 bgn (sub32 fin bgn / 2)
      let probe_offset := p.page_index pi
      let probe := (p.mem probe_offset).time
      let tr := { tr with reads := tr.reads ++ [pi] }
      if probe = key then (pi, tr)
      else if probe < key then
        let bgn' := add32 pi 1
        if bgn' = count then (pi, tr)
        else binLoop p key count fuel bgn' fin pi tr
      else
        let fin' := sub32 pi 1
        if fin' = MOD32 - 1 then (pi, tr)
        else binLoop p key count fuel bgn fin' pi tr
    else (probe_index, tr)

/-- page.cpp:332-364: the interpolation loop, at most `quota` (5) rounds.
State: `(begin, end, search_lower_bound, search_upper_bound, probe_index)`;
returns the final `(begin, end, probe_index)` with the extended trace.  The
probe expression divides by `search_upper_bound - search_lower_bound`
(recorded in `divs`); its `int64_t` quotient is converted to the `uint32_t`
`probe_index`. -/
def interpLoop (p : PageHeader) (key : Int) :
    Nat → Nat → Nat → Int → Int → Nat → SearchTrace →
    Nat × Nat × Nat × SearchTrace
  | 0, bgn, fin, _, _, probe_index, tr => (bgn, fin, probe_index, tr)
  | quota + 1, bgn, fin, slb, sup, probe_index, tr =>
    if sub32 fin bgn < AKU_INTERPOLATION_SEARCH_CUTOFF then
      (bgn, fin, probe_index, tr)
    else
      let tr := { tr with divs := tr.divs ++ [sup - slb] }
      let pi := toU32 (Int.tdiv ((key - slb) * (sub32 fin bgn : Nat)) (sup - slb))
      if pi > bgn ∧ pi < fin then
        let probe_offset := p.page_index pi
        let probe := (p.mem probe_offset).time
        let tr := { tr with reads := tr.reads ++ [pi] }
        if probe < key then
          let bgn' := add32 pi 1
          let off2 := p.page_index bgn'
          let tr := { tr with reads := tr.reads ++ [bgn'] }
          interpLoop p key quota bgn' fin (p.mem off2).time sup pi tr
        else
          let fin' := sub32 pi 1
          let off2 := p.page_index fin'
          let tr := { tr with reads := tr.reads ++ [fin'] }
          interpLoop p key quota bgn fin' slb (p.mem off2).time pi tr
      else (bgn, fin, pi, tr)

/-- page.cpp:302-443 `PageHeader::search`: query validation, the bounding-box
dispatch (interpolation narrowing or the out-of-range shortcuts), the binary
search, and the directional scan.  `fuel` bounds the unrolling of the binary
and scan loops. -/
def PageHeader.search (p : PageHeader) (q : QueryV) (fuel : Nat) : SearchTrace :=
  let tr0 : SearchTrace := ⟨[], [], [], false, false⟩
  if validate_query q = false then
    { tr0 with err := true }
  else
    let is_backward := q.direction = AKU_CURSOR_DIR_BACKWARD
    let max_index := sub32 p.count 1
    let key := if is_backward then q.upperbound else q.lowerbound
    if key ≤ p.bbox.max_timestamp ∧ key ≥ p.bbox.min_timestamp then
      let r1 := interpLoop p key 5 0 max_index
                  p.bbox.min_timestamp p.bbox.max_timestamp 0 tr0
      let r2 := binLoop p key p.count fuel r1.1 r1.2.1 r1.2.2.1 r1.2.2.2
      if is_backward then scanBwdLoop p q fuel r2.1 r2.2
      else scanFwdLoop p q max_index fuel r2.1 r2.2
    else
      if key > p.bbox.max_timestamp then
        if is_backward then scanBwdLoop p q fuel max_index tr0
        else { tr0 with completed := true }
      else
        if ¬ is_backward then scanFwdLoop p q max_index fuel 0 tr0
        else { tr0 with completed := true }

/-- The state of the volume ring owned by `Storage`: the pages of the
volumes, the raw (monotonically increasing) `active_volume_index_` counter,
and the position of the `active_volume_` / `active_page_` pointers within
the ring. -/
structure StorageState where
  volumes : List PageHeader
  active_volume_index : Nat
  active_vol : Nat

/-- In-place update of one volume's page. -/
def modifyVol (vols : List PageHeader) (i : Nat) (f : PageHeader → PageHeader) :
    List PageHeader :=
  vols.set i (f (vols.getD i (mkPageHeader 0 0)))

/-- storage.cpp:56-66 `Volume::reallocate_disc_space`: a destructive remap
followed by placement-new of a fresh `PageHeader` of the same length,
preserving `page_id`, `open_count` and `close_count`. -/
def reallocate_disc_space (pg : PageHeader) : PageHeader :=
  { mkPageHeader pg.length pg.page_id with
      open_count := pg.open_count, close_count := pg.close_count }

/-- storage.cpp:199-211 `Storage::advance_volume_`: under the mutex, if the
revision still matches, close the active volume, advance the index,
reallocate the next volume's page and open it (`reuse`). -/
def advance_volume_ (s : StorageState) (local_rev : Nat) : StorageState :=
  if local_rev = s.active_volume_index then
    let vols1 := modifyVol s.volumes s.active_vol PageHeader.pageClose
    let idx := s.active_volume_index + 1
    let av := idx % vols1.length
    { volumes := modifyVol vols1 av (fun pg => (reallocate_disc_space pg).reuse)
    , active_volume_index := idx
    , active_vol := av }
  else s

/-- storage.cpp:137-146: the scan for the volume with the maximal
`open_count` ("overwrites count"); `>=` makes the highest index win ties.
Accumulator `(max_index, max_overwrites)` starts at `(-1, -1)`. -/
def selectMaxVolume (vols : List PageHeader) : Int :=
  (vols.enum.foldl
    (fun (acc : Int × Int) pr =>
      if (pr.2.open_count : Int) ≥ acc.2 then ((pr.1 : Int), (pr.2.open_count : Int))
      else acc)
    (-1, -1)).1

/-- storage.cpp:136-157 `Storage::select_active_page`: pick the volume with
maximal `open_count`, make it active, and if its `close_count` equals its
`open_count` call `advance_volume_` on it. -/
def select_active_page (s : StorageState) : StorageState :=
  let mi := (selectMaxVolume s.volumes).toNat
  let s1 : StorageState :=
    { volumes := s.volumes, active_volume_index := mi, active_vol := mi }
  let pg := s1.volumes.getD mi (mkPageHeader 0 0)
  if pg.close_count = pg.open_count then advance_volume_ s1 s1.active_volume_index
  else s1

/-- storage.cpp:446-447 `Storage::search(InternalCursor* cursor)`: the body
of the function is empty, so the storage state is not consulted and the
cursor receives nothing — modelled as the identity on the cursor trace. -/
def storageSearch (_s : StorageState) (cursor : SearchTrace) : SearchTrace :=
  cursor

/-! Concrete pages, queries and storage states used to evaluate the code on
explicit inputs. -/

/-- A freshly constructed 4096-byte page (also serves as an empty page). -/
def page4096 : PageHeader := mkPageHeader 4096 0

/-- A record with `param_id = 7`, `timestamp = 5`, minimal length. -/
def entry755 : EntryV := ⟨7, 5, 16⟩

/-- Three identical records (`param 7`, `ts 5`) appended to a fresh page:
offsets 4079, 4063, 4047 at slots 0, 1, 2. -/
def pageDup3 : PageHeader :=
  (((page4096.add_entry entry755).2.add_entry entry755).2.add_entry entry755).2

/-- The same page after the worker mirrored the (already sorted) offsets:
`sync_index = 3 = count`. -/
def pageDup3s : PageHeader := pageDup3.sync_indexes [4079, 4063, 4047]

/-- Forward point query for `param 7`, `[5, 5]`. -/
def queryDup : QueryV := ⟨7, 5, 5, AKU_CURSOR_DIR_FORWARD⟩

/-- Forward query `[0, 0]` used against the empty page. -/
def queryEmpty : QueryV := ⟨7, 0, 0, AKU_CURSOR_DIR_FORWARD⟩

/-- A page holding 65 entries that all carry timestamp 42 (`param 7`),
sorted and fully synced; 65 is one more than the interpolation cutoff. -/
def page65 : PageHeader :=
  { count := 65, last_offset := 1000, sync_index := 65, length := 4096
  , open_count := 1, close_count := 0, page_id := 0
  , bbox := ⟨7, 7, 42, 42⟩
  , page_index := fun i => 1000 + 16 * i
  , mem := fun _ => ⟨7, 42, 16⟩ }

/-- Forward point query for the shared timestamp of `page65`. -/
def query42 : QueryV := ⟨7, 42, 42, AKU_CURSOR_DIR_FORWARD⟩

/-- Two records, timestamp `0` then timestamp `-1` (same `param_id`). -/
def pageNeg : PageHeader :=
  (((mkPageHeader 4096 0).add_entry ⟨1, 0, 16⟩).2.add_entry ⟨1, -1, 16⟩).2

/-- `pageNeg` after `PageHeader::sort`. -/
def pageNegSorted : PageHeader := pageNeg.sort

/-- A page whose free space is zero (`length = pageHeaderSize + 1`). -/
def pageTiny : PageHeader := mkPageHeader (pageHeaderSize + 1) 5

/-- A record shorter than the fixed header (3 bytes). -/
def entryShort : EntryV := ⟨1, 0, 3⟩

/-- A volume page in the mid-rotation crash window: it was closed by
`advance_volume_` but the successor was never opened, so
`open_count = close_count = 1`. -/
def volCrash0 : PageHeader :=
  { mkPageHeader 4096 0 with open_count := 1, close_count := 1 }

/-- The second, never-yet-opened volume of the ring. -/
def volFresh1 : PageHeader := mkPageHeader 4096 1

/-- The storage state found at startup after the mid-rotation crash. -/
def storC8 : StorageState := ⟨[volCrash0, volFresh1], 0, 0⟩

/-- The storage state after startup recovery (`select_active_page`). -/
def storC8after : StorageState := select_active_page storC8

/-- Default page used with `List.getD`. -/
def dfltPage : PageHeader := mkPageHeader 0 0

/-- A one-volume storage whose page holds qualifying entries. -/
def storOne : StorageState := ⟨[pageDup3s], 0, 0⟩

/-- The empty cursor trace (a freshly constructed cursor). -/
def cursor0 : SearchTrace := ⟨[], [], [], false, false⟩

/-- The page obtained by a sequence of `add_entry` calls. -/
def applyAdds (p : PageHeader) : List EntryV → PageHeader
  | [] => p
  | e :: es => applyAdds (p.add_entry e).2 es

/-- Every call of the sequence returns `SUCCESS`. -/
def allSuccessB (p : PageHeader) : List EntryV → Bool
  | [] => true
  | e :: es =>
    decide ((p.add_entry e).1 = WriteStatus.success) && allSuccessB (p.add_entry e).2 es

/-- Non-strict lexicographic order on `(uint64 timestamp, param_id)` keys. -/
def lexLeKey (k1 k2 : Nat × Nat) : Prop :=
  k1.1 < k2.1 ∨ (k1.1 = k2.1 ∧ k1.2 ≤ k2.2)

/-- All slot indices a trace reads or emits lie below `c`. -/
def TraceWithin (c : Nat) (tr : SearchTrace) : Prop :=
  (∀ i ∈ tr.reads, i < c) ∧ (∀ pr ∈ tr.puts, pr.1 < c)

/-- Well-formedness and containment invariant of a page under appends: the
machine fields are in range, the index array ends below `last_offset`, all
stored offsets lie at or above `last_offset`, and every stored entry is
inside the bounding box. -/
def PageInv (p : PageHeader) : Prop :=
  p.length ≤ MOD32 ∧
  p.last_offset < p.length ∧
  pageHeaderSize + sizeofEntryOffset * p.count ≤ p.last_offset ∧
  ∀ i < p.count,
    p.last_offset ≤ p.page_index i ∧
    bboxContains p.bbox (p.mem (p.page_index i)).param_id
      (p.mem (p.page_index i)).time = true

/-- The entry list used to instantiate the C7 theorem (one negative
timestamp). -/
def entriesNeg : List EntryV := [⟨7, -5, 16⟩, ⟨3, 10, 20⟩]

/-! Theorems settling the claims. -/

/-- The updated bounding box contains the pair it was widened with. -/
theorem bboxContains_update_self (b : PageBoundingBox) (param : Nat) (time : Int) :
    bboxContains (update_bounding_box b param time) param time = true := by
  unfold update_bounding_box bboxContains
  dsimp only
  split_ifs <;> simp_all

/-- Widening a bounding box keeps every previously contained pair inside. -/
theorem bboxContains_update_mono (b : PageBoundingBox) (param pid : Nat) (time t : Int)
    (h : bboxContains b pid t = true) :
    bboxContains (update_bounding_box b param time) pid t = true := by
  unfold update_bounding_box
  unfold bboxContains at h ⊢
  dsimp only
  simp only [Bool.and_eq_true, decide_eq_true_eq] at h
  split_ifs <;> simp_all <;> omega

/-- C4: for every page and every entry whose length is at least the header
size and whose required bytes (`length + sizeof(EntryOffset)`) fit in the
free space, `add_entry` returns `SUCCESS`; afterwards `last_offset` is
decremented by the entry's length, the record sits at the new `last_offset`,
`page_index[old count]` holds the new `last_offset`, `count` grew by exactly
one, and the bounding box was widened to include the entry's
`(param_id, timestamp)`.  The two extra hypotheses say the machine fields are
in range (`count` and `last_offset` are a `uint32_t` and an offset inside a
real page). -/
theorem c4_add_entry_success_postconditions (p : PageHeader) (e : EntryV)
    (hlen : sizeofEntry ≤ e.length)
    (hfit : (e.length + sizeofEntryOffset : Int) ≤ p.get_free_space)
    (hcnt : p.count + 1 < MOD32)
    (hlast : p.last_offset < MOD64) :
    (p.add_entry e).1 = WriteStatus.success ∧
    (p.add_entry e).2.last_offset + e.length = p.last_offset ∧
    (p.add_entry e).2.mem (p.add_entry e).2.last_offset = e ∧
    (p.add_entry e).2.page_index p.count = (p.add_entry e).2.last_offset ∧
    (p.add_entry e).2.count = p.count + 1 ∧
    (p.add_entry e).2.inside_bbox e.param_id e.time = true ∧
    (∀ pid t, p.inside_bbox pid t = true →
      (p.add_entry e).2.inside_bbox pid t = true) := by
  have hfs : p.get_free_space
      = (p.last_offset : Int) - (64 + 4 * p.count) := rfl
  rw [show sizeofEntryOffset = 4 from rfl] at hfit
  have hfree0 : (0 : Int) ≤ p.get_free_space := by
    rw [hfs] at hfit ⊢
    omega
  have hfree64 : p.get_free_space < (MOD64 : Nat) := by
    have h1 : (p.last_offset : Int) < (MOD64 : Nat) := by exact_mod_cast hlast
    rw [hfs]
    omega
  have hT : toU64 p.get_free_space = p.get_free_space.toNat := by
    unfold toU64
    rw [Int.emod_eq_of_lt hfree0 hfree64]
  have h3 : (p.get_free_space.toNat : Int) = p.get_free_space :=
    Int.toNat_of_nonneg hfree0
  have hlenle : e.length + 4 ≤ p.get_free_space.toNat := by
    omega
  have hlastle : p.get_free_space.toNat ≤ p.last_offset := by
    rw [hfs] at h3
    omega
  have hguard2 : ¬ ((e.length + sizeofEntryOffset) % MOD64 > toU64 p.get_free_space) := by
    rw [hT, show sizeofEntryOffset = 4 from rfl]
    have hmod : (e.length + 4) % MOD64 = e.length + 4 := by
      apply Nat.mod_eq_of_lt
      have hm : MOD64 = 18446744073709551616 := rfl
      omega
    omega
  have hguard1 : ¬ (e.length < sizeofEntry) := Nat.not_lt.mpr hlen
  have hsub : p.last_offset - e.length + e.length = p.last_offset := by
    omega
  have hres : p.add_entry e
      = (WriteStatus.success,
         { p with last_offset := p.last_offset - e.length
                , page_index :=
                    Function.update p.page_index p.count (p.last_offset - e.length)
                , mem := Function.update p.mem (p.last_offset - e.length) e
                , count := (p.count + 1) % MOD32
                , bbox := update_bounding_box p.bbox e.param_id e.time }) := by
    simp only [PageHeader.add_entry, if_neg hguard1, if_neg hguard2]
  refine ⟨?_, ?_, ?_, ?_, ?_, ?_, ?_⟩ <;> rw [hres]
  · exact hsub
  · exact Function.update_same _ _ _
  · exact Function.update_same _ _ _
  · exact Nat.mod_eq_of_lt hcnt
  · exact bboxContains_update_self p.bbox e.param_id e.time
  · intro pid t h
    exact bboxContains_update_mono p.bbox e.param_id pid e.time t h

/-- Closed instantiation of `c4_add_entry_success_postconditions` at a fresh
4096-byte page and the record `entry755`. -/
theorem c4_witness :
    (page4096.add_entry entry755).1 = WriteStatus.success ∧
    (page4096.add_entry entry755).2.last_offset + entry755.length
        = page4096.last_offset ∧
    (page4096.add_entry entry755).2.mem (page4096.add_entry entry755).2.last_offset
        = entry755 ∧
    (page4096.add_entry entry755).2.page_index page4096.count
        = (page4096.add_entry entry755).2.last_offset ∧
    (page4096.add_entry entry755).2.count = page4096.count + 1 ∧
    (page4096.add_entry entry755).2.inside_bbox entry755.param_id entry755.time
        = true ∧
    (∀ pid t, page4096.inside_bbox pid t = true →
      (page4096.add_entry entry755).2.inside_bbox pid t = true) :=
  c4_add_entry_success_postconditions page4096 entry755 (by decide) (by decide)
    (by decide) (by decide)

/-- C5 counterexample: on a page with zero free space and a record of length
3 (shorter than the header), the required bytes (7) exceed the free space
(0), yet `add_entry` returns `BAD_DATA`, not the `WRITE_OVERFLOW` the claim
demands for every overflowing write. -/
theorem c5_counterexample_bad_data_wins :
    pageTiny.get_free_space = 0 ∧
    (entryShort.length + sizeofEntryOffset : Int) > pageTiny.get_free_space ∧
    (pageTiny.add_entry entryShort).1 = WriteStatus.badData ∧
    WriteStatus.badData ≠ WriteStatus.overflow := by
  decide

/-- C5 (amended): the `BAD_DATA` check precedes the overflow check: a record
shorter than the header gets `BAD_DATA` regardless of the free space, and
only a header-sized-or-longer record whose required bytes exceed the free
space gets `WRITE_OVERFLOW`; both error paths return the page untouched. -/
theorem c5_error_paths_leave_page_untouched (p : PageHeader) (e : EntryV)
    (hfree0 : (0 : Int) ≤ p.get_free_space)
    (hlast : p.last_offset < MOD64)
    (helen : e.length < MOD32) :
    (e.length < sizeofEntry →
      p.add_entry e = (WriteStatus.badData, p)) ∧
    (sizeofEntry ≤ e.length →
      (e.length + sizeofEntryOffset : Int) > p.get_free_space →
      p.add_entry e = (WriteStatus.overflow, p)) := by
  constructor
  · intro h
    simp only [PageHeader.add_entry, if_pos h]
  · intro hlen hgt
    have hguard1 : ¬ (e.length < sizeofEntry) := Nat.not_lt.mpr hlen
    have hfs : p.get_free_space
        = (p.last_offset : Int) - (64 + 4 * p.count) := rfl
    rw [show sizeofEntryOffset = 4 from rfl] at hgt
    have hm32 : MOD32 = 4294967296 := rfl
    have hfree64 : p.get_free_space < (MOD64 : Nat) := by
      have h2 : (p.last_offset : Int) < (MOD64 : Nat) := by exact_mod_cast hlast
      rw [hfs]
      omega
    have hT : toU64 p.get_free_space = p.get_free_space.toNat := by
      unfold toU64
      rw [Int.emod_eq_of_lt hfree0 hfree64]
    have hguard2 : (e.length + sizeofEntryOffset) % MOD64 > toU64 p.get_free_space := by
      rw [hT, show sizeofEntryOffset = 4 from rfl]
      have hmod : (e.length + 4) % MOD64 = e.length + 4 := by
        apply Nat.mod_eq_of_lt
        have hm : MOD64 = 18446744073709551616 := rfl
        omega
      rw [hmod]
      have h3 : (p.get_free_space.toNat : Int) = p.get_free_space :=
        Int.toNat_of_nonneg hfree0
      omega
    simp only [PageHeader.add_entry, if_neg hguard1, if_pos hguard2]

/-- Closed instantiation of `c5_error_paths_leave_page_untouched` at the
zero-free-space page: length 3 gives `BAD_DATA`, length 16 gives
`WRITE_OVERFLOW`. -/
theorem c5_witness :
    (entryShort.length < sizeofEntry →
      pageTiny.add_entry entryShort = (WriteStatus.badData, pageTiny)) ∧
    (sizeofEntry ≤ entryShort.length →
      (entryShort.length + sizeofEntryOffset : Int) > pageTiny.get_free_space →
      pageTiny.add_entry entryShort = (WriteStatus.overflow, pageTiny)) :=
  c5_error_paths_leave_page_untouched pageTiny entryShort (by decide) (by decide)
    (by decide)

/-- C2 counterexample: on a page whose worker has synced nothing
(`sync_index = 0`, `count = 3`) the validated query reads slots 1 and 2 and
emits their offsets, so `search` does read and return entries of the
unsorted tail `[sync_index, count)`. -/
theorem c2_counterexample_tail_is_searched :
    pageDup3.sync_index = 0 ∧ pageDup3.count = 3 ∧
    validate_query queryDup = true ∧
    (pageDup3.search queryDup 100).reads = [1, 1, 2] ∧
    (pageDup3.search queryDup 100).puts ≠ [] := by
  decide

/-- C6 counterexample: after appending timestamps `0` and `-1` (equal
`param_id`) and sorting, the entry sequence referenced by
`page_index[0..2)` is `0, -1` — not non-decreasing in the signed
`(timestamp, param_id)` order the data model defines, because the
comparator of page.cpp:456-457 converts timestamps to `uint64_t`. -/
theorem c6_counterexample_negative_timestamp :
    pageNeg.count = 2 ∧ pageNegSorted.count = 2 ∧
    (pageNegSorted.mem (pageNegSorted.page_index 0)).time = 0 ∧
    (pageNegSorted.mem (pageNegSorted.page_index 0)).param_id = 1 ∧
    (pageNegSorted.mem (pageNegSorted.page_index 1)).time = -1 ∧
    (pageNegSorted.mem (pageNegSorted.page_index 1)).param_id = 1 ∧
    ¬ ((0 : Int) ≤ -1) := by
  decide

/-- The comparator of page.cpp:453-458 is `false` exactly when the compared
keys are in non-strict reversed lexicographic order. -/
theorem sortLtB_false_iff (p : PageHeader) (a b : Nat) :
    sortLtB p b a = false ↔ lexLeKey (sortKeyAt p a) (sortKeyAt p b) := by
  unfold sortLtB lexLeKey sortKeyAt
  simp only [Bool.or_eq_false_iff, Bool.and_eq_false_iff, decide_eq_false_iff_not,
    Bool.decide_eq_true, not_lt]
  constructor
  · intro h
    rcases h with ⟨h1, h2⟩
    rcases h2 with h2 | h2
    · omega
    · omega
  · intro h
    rcases h with h | ⟨h1, h2⟩
    · omega
    · omega

/-- The index list of the sorted page is the insertion sort of the original
index list. -/
theorem sort_indexList (p : PageHeader) :
    p.sort.indexList
      = p.indexList.insertionSort (fun a b => sortLtB p b a = false) := by
  unfold PageHeader.sort PageHeader.indexList
  dsimp only
  apply List.ext_getElem
  · simp [List.length_insertionSort]
  · intro i h1 h2
    simp only [List.getElem_map, List.getElem_range]
    have hi : i < p.count := by simpa using h1
    rw [if_pos hi]
    apply List.getD_eq_getElem

/-- C6 (amended): after `PageHeader::sort`, the sequence of entries
referenced by `page_index[0..count)` is non-decreasing in the composite key
`(timestamp, param_id)` where timestamps are compared as *unsigned* 64-bit
integers (the `uint64_t` conversion the comparator performs); for
nonnegative timestamps this coincides with the signed order. -/
theorem c6_sort_nondecreasing_unsigned_key (p : PageHeader) :
    List.Sorted (fun a b => lexLeKey (sortKeyAt p.sort a) (sortKeyAt p.sort b))
      p.sort.indexList := by
  haveI ht : IsTotal Nat (fun a b => sortLtB p b a = false) := by
    constructor
    intro a b
    rw [sortLtB_false_iff, sortLtB_false_iff]
    unfold lexLeKey
    omega
  haveI htr : IsTrans Nat (fun a b => sortLtB p b a = false) := by
    constructor
    intro a b c hab hbc
    rw [sortLtB_false_iff] at hab hbc ⊢
    unfold lexLeKey at hab hbc ⊢
    omega
  have hs := List.sorted_insertionSort (fun a b => sortLtB p b a = false) p.indexList
  rw [sort_indexList]
  exact hs.imp (fun h => (sortLtB_false_iff p _ _).mp h)

/-- `add_entry` preserves the page invariant, whatever its return status. -/
theorem pageInv_add_entry (p : PageHeader) (e : EntryV)
    (hlen32 : e.length < MOD32) (hInv : PageInv p) :
    PageInv (p.add_entry e).2 := by
  obtain ⟨hL, hlo, hix, hent⟩ := hInv
  by_cases h1 : e.length < sizeofEntry
  · simp only [PageHeader.add_entry, if_pos h1]
    exact ⟨hL, hlo, hix, hent⟩
  · by_cases h2 : (e.length + sizeofEntryOffset) % MOD64 > toU64 p.get_free_space
    · simp only [PageHeader.add_entry, if_neg h1, if_pos h2]
      exact ⟨hL, hlo, hix, hent⟩
    · have hm32 : MOD32 = 4294967296 := rfl
      have hm64 : MOD64 = 18446744073709551616 := rfl
      have hoff : sizeofEntryOffset = 4 := rfl
      have hhdr : pageHeaderSize = 64 := rfl
      have hse : sizeofEntry = 16 := rfl
      rw [hoff, hhdr] at hix
      have h16 : 16 ≤ e.length := by
        have h := Nat.not_lt.mp h1
        rw [hse] at h
        exact h
      have hfs : p.get_free_space
          = (p.last_offset : Int) - (64 + 4 * p.count) := rfl
      have hfree0 : (0 : Int) ≤ p.get_free_space := by
        rw [hfs]
        omega
      have hfree64 : p.get_free_space < (MOD64 : Nat) := by
        rw [hfs]
        have : (p.last_offset : Int) < MOD32 := by
          have := hlo.trans_le hL
          exact_mod_cast this
        rw [hm32] at this
        rw [hm64]
        push_cast
        omega
      have hT : toU64 p.get_free_space = p.get_free_space.toNat := by
        unfold toU64
        rw [Int.emod_eq_of_lt hfree0 hfree64]
      rw [hT] at h2
      have hmod : (e.length + sizeofEntryOffset) % MOD64 = e.length + 4 := by
        rw [hoff]
        apply Nat.mod_eq_of_lt
        omega
      rw [hmod] at h2
      have h3 : (p.get_free_space.toNat : Int) = p.get_free_space :=
        Int.toNat_of_nonneg hfree0
      rw [hfs] at h3
      have hroom : e.length + 4 ≤ p.get_free_space.toNat := Nat.not_lt.mp (by omega)
      have hfit : 64 + 4 * p.count + (e.length + 4) ≤ p.last_offset := by
        omega
      have hguard2 : ¬ ((e.length + 4) % MOD64 > toU64 p.get_free_space) := by
        rw [hT]
        have hmod4 : (e.length + 4) % MOD64 = e.length + 4 := by
          apply Nat.mod_eq_of_lt
          omega
        rw [hmod4]
        omega
      have hc1 : (p.count + 1) % MOD32 = p.count + 1 := by
        apply Nat.mod_eq_of_lt
        omega
      simp only [PageHeader.add_entry, if_neg h1, if_neg hguard2, PageInv, hc1, hoff, hhdr]
      refine ⟨hL, ?_, ?_, ?_⟩
      · omega
      · omega
      · intro i hi
        by_cases hic : i = p.count
        · subst hic
          rw [Function.update_same, Function.update_same]
          exact ⟨Nat.le_refl _, bboxContains_update_self _ _ _⟩
        · have hi' : i < p.count := by omega
          rw [Function.update_noteq hic]
          obtain ⟨hge, hbox⟩ := hent i hi'
          have hne : p.page_index i ≠ p.last_offset - e.length := by
            omega
          rw [Function.update_noteq hne]
          exact ⟨by omega, bboxContains_update_mono _ _ _ _ _ hbox⟩

/-- The invariant survives any sequence of appends. -/
theorem pageInv_applyAdds (es : List EntryV) :
    ∀ p, PageInv p → (∀ e ∈ es, e.length < MOD32) → PageInv (applyAdds p es) := by
  induction es with
  | nil => intro p h _; exact h
  | cons e es ih =>
    intro p h hes
    exact ih _ (pageInv_add_entry p e (hes e (by simp)) h)
      (fun e' he' => hes e' (by simp [he']))

/-- C7: after any sequence of `add_entry` calls on a fresh page that all
return `SUCCESS`, every entry stored in the page — for every `param_id` and
every signed 64-bit timestamp, negative ones included — lies inside the
bounding box.  (The containment holds regardless of the statuses; the
`allSuccessB` hypothesis mirrors the claim.)  The well-formedness
hypotheses say the page is larger than its header and no larger than a
`uint32_t` offset can address, and entry lengths are `uint32_t` values. -/
theorem c7_bbox_contains_every_entry (len pid : Nat) (es : List EntryV)
    (hlen1 : pageHeaderSize < len) (hlen2 : len ≤ MOD32)
    (hes : ∀ e ∈ es, e.length < MOD32)
    (_hall : allSuccessB (mkPageHeader len pid) es = true) :
    ∀ i < (applyAdds (mkPageHeader len pid) es).count,
      (applyAdds (mkPageHeader len pid) es).inside_bbox
        ((applyAdds (mkPageHeader len pid) es).mem
          ((applyAdds (mkPageHeader len pid) es).page_index i)).param_id
        ((applyAdds (mkPageHeader len pid) es).mem
          ((applyAdds (mkPageHeader len pid) es).page_index i)).time = true := by
  have hhdr : pageHeaderSize = 64 := rfl
  rw [hhdr] at hlen1
  have h0 : PageInv (mkPageHeader len pid) := by
    refine ⟨hlen2, ?_, ?_, ?_⟩
    · show len - 1 < len
      omega
    · show (64 + 4 * 0 : Nat) ≤ len - 1
      omega
    · intro i hi
      have hc : (mkPageHeader len pid).count = 0 := rfl
      rw [hc] at hi
      exact absurd hi (Nat.not_lt_zero i)
  have hInv := pageInv_applyAdds es _ h0 hes
  intro i hi
  exact (hInv.2.2.2 i hi).2

/-- Closed instantiation of `c7_bbox_contains_every_entry` on a 4096-byte
page and two successful appends, one with timestamp `-5`. -/
theorem c7_witness :
    allSuccessB (mkPageHeader 4096 0) entriesNeg = true ∧
    ∀ i < (applyAdds (mkPageHeader 4096 0) entriesNeg).count,
      (applyAdds (mkPageHeader 4096 0) entriesNeg).inside_bbox
        ((applyAdds (mkPageHeader 4096 0) entriesNeg).mem
          ((applyAdds (mkPageHeader 4096 0) entriesNeg).page_index i)).param_id
        ((applyAdds (mkPageHeader 4096 0) entriesNeg).mem
          ((applyAdds (mkPageHeader 4096 0) entriesNeg).page_index i)).time = true :=
  ⟨by decide, c7_bbox_contains_every_entry 4096 0 entriesNeg (by decide) (by decide)
    (by decide) (by decide)⟩

/-- Reduced `uint32_t` subtraction is plain subtraction. -/
theorem sub32_eq (a b : Nat) (hb : b ≤ a) (ha : a < MOD32) : sub32 a b = a - b := by
  unfold sub32
  rw [Nat.mod_eq_of_lt ha, Nat.mod_eq_of_lt (lt_of_le_of_lt hb ha)]
  rw [show a + MOD32 - b = MOD32 + (a - b) by omega, Nat.add_mod_left]
  exact Nat.mod_eq_of_lt (by omega)

/-- Non-overflowing `uint32_t` addition is plain addition. -/
theorem add32_eq (a b : Nat) (h : a + b < MOD32) : add32 a b = a + b := by
  unfold add32
  exact Nat.mod_eq_of_lt h

/-- Appending one in-range read index preserves the read bound. -/
theorem forall_lt_append_single {c i0 : Nat} {l : List Nat}
    (h : ∀ i ∈ l, i < c) (h0 : i0 < c) : ∀ i ∈ l ++ [i0], i < c := by
  intro i hi
  rcases List.mem_append.mp hi with h' | h'
  · exact h i h'
  · rw [List.mem_singleton] at h'
    subst h'
    exact h0

/-- Appending one in-range emitted pair preserves the emission bound. -/
theorem forall_fst_append_single {c : Nat} {pr0 : Nat × Nat} {l : List (Nat × Nat)}
    (h : ∀ pr ∈ l, pr.1 < c) (h0 : pr0.1 < c) : ∀ pr ∈ l ++ [pr0], pr.1 < c := by
  intro pr hpr
  rcases List.mem_append.mp hpr with h' | h'
  · exact h pr h'
  · rw [List.mem_singleton] at h'
    subst h'
    exact h0

/-- The forward scan reads and emits only slots in `[0, count)` when started
at or below `max_index = count - 1`. -/
theorem traceWithin_scanFwd (p : PageHeader) (q : QueryV) (m c : Nat)
    (hm : m < c) (hc : c < MOD32) :
    ∀ fuel pi tr, pi ≤ m → TraceWithin c tr →
      TraceWithin c (scanFwdLoop p q m fuel pi tr) := by
  intro fuel
  induction fuel with
  | zero => intro pi tr _ htr; exact htr
  | succ fuel ih =>
    intro pi tr hpi htr
    obtain ⟨hr, hp⟩ := htr
    have hpc : pi < c := lt_of_le_of_lt hpi hm
    simp only [scanFwdLoop]
    split_ifs with h1 h2 h2
    · exact ⟨forall_lt_append_single hr hpc, forall_fst_append_single hp hpc⟩
    · exact ⟨forall_lt_append_single hr hpc, hp⟩
    · apply ih
      · have : pi < m := by
          rcases not_or.mp h1 with ⟨-, hne⟩
          omega
        rw [add32_eq pi 1 (by omega)]
        omega
      · exact ⟨forall_lt_append_single hr hpc, forall_fst_append_single hp hpc⟩
    · apply ih
      · have : pi < m := by
          rcases not_or.mp h1 with ⟨-, hne⟩
          omega
        rw [add32_eq pi 1 (by omega)]
        omega
      · exact ⟨forall_lt_append_single hr hpc, hp⟩

/-- The backward scan reads and emits only slots in `[0, count)` when
started below `count`. -/
theorem traceWithin_scanBwd (p : PageHeader) (q : QueryV) (c : Nat)
    (hc : c < MOD32) :
    ∀ fuel pi tr, pi < c → TraceWithin c tr →
      TraceWithin c (scanBwdLoop p q fuel pi tr) := by
  intro fuel
  induction fuel with
  | zero => intro pi tr _ htr; exact htr
  | succ fuel ih =>
    intro pi tr hpi htr
    obtain ⟨hr, hp⟩ := htr
    simp only [scanBwdLoop]
    split_ifs with h1 h2 h2
    · exact ⟨forall_lt_append_single hr hpi, forall_fst_append_single hp hpi⟩
    · exact ⟨forall_lt_append_single hr hpi, hp⟩
    · apply ih
      · have hne : pi ≠ 0 := (not_or.mp h1).2
        rw [sub32_eq pi 1 (by omega) (by omega)]
        omega
      · exact ⟨forall_lt_append_single hr hpi, forall_fst_append_single hp hpi⟩
    · apply ih
      · have hne : pi ≠ 0 := (not_or.mp h1).2
        rw [sub32_eq pi 1 (by omega) (by omega)]
        omega
      · exact ⟨forall_lt_append_single hr hpi, hp⟩

/-- The binary-search loop reads only slots in `[0, count)`; the final
`probe_index` is below `count` or untouched, and with fuel left and a
nonempty interval it is always below `count`. -/
theorem binLoop_within (p : PageHeader) (key : Int) (c : Nat) (hc : c < MOD32) :
    ∀ fuel bgn fin pi0 tr, fin < c → TraceWithin c tr →
      TraceWithin c (binLoop p key c fuel bgn fin pi0 tr).2 ∧
      ((binLoop p key c fuel bgn fin pi0 tr).1 < c ∨
        (binLoop p key c fuel bgn fin pi0 tr).1 = pi0) ∧
      (1 ≤ fuel → bgn ≤ fin → (binLoop p key c fuel bgn fin pi0 tr).1 < c) := by
  intro fuel
  induction fuel with
  | zero =>
    intro bgn fin pi0 tr hfin htr
    exact ⟨htr, Or.inr rfl, fun h _ => absurd h (by omega)⟩
  | succ fuel ih =>
    intro bgn fin pi0 tr hfin htr
    obtain ⟨hr, hp⟩ := htr
    simp only [binLoop]
    split_ifs with hge heq hlt hbc hend
    · have hs : sub32 fin bgn = fin - bgn := sub32_eq fin bgn hge (lt_trans hfin hc)
      have hpc : add32 bgn (sub32 fin bgn / 2) < c := by
        rw [hs, add32_eq _ _ (by omega)]
        omega
      exact ⟨⟨forall_lt_append_single hr hpc, hp⟩, Or.inl hpc, fun _ _ => hpc⟩
    · have hs : sub32 fin bgn = fin - bgn := sub32_eq fin bgn hge (lt_trans hfin hc)
      have hpc : add32 bgn (sub32 fin bgn / 2) < c := by
        rw [hs, add32_eq _ _ (by omega)]
        omega
      exact ⟨⟨forall_lt_append_single hr hpc, hp⟩, Or.inl hpc, fun _ _ => hpc⟩
    · have hs : sub32 fin bgn = fin - bgn := sub32_eq fin bgn hge (lt_trans hfin hc)
      have hpc : add32 bgn (sub32 fin bgn / 2) < c := by
        rw [hs, add32_eq _ _ (by omega)]
        omega
      have hres := ih (add32 (add32 bgn (sub32 fin bgn / 2)) 1) fin
        (add32 bgn (sub32 fin bgn / 2))
        { reads := tr.reads ++ [add32 bgn (sub32 fin bgn / 2)], puts := tr.puts
        , divs := tr.divs, completed := tr.completed, err := tr.err }
        hfin ⟨forall_lt_append_single hr hpc, hp⟩
      refine ⟨hres.1, ?_, fun _ _ => ?_⟩
      · rcases hres.2.1 with h | h
        · exact Or.inl h
        · exact Or.inl (h.trans_lt hpc)
      · rcases hres.2.1 with h | h
        · exact h
        · exact h.trans_lt hpc
    · have hs : sub32 fin bgn = fin - bgn := sub32_eq fin bgn hge (lt_trans hfin hc)
      have hpc : add32 bgn (sub32 fin bgn / 2) < c := by
        rw [hs, add32_eq _ _ (by omega)]
        omega
      exact ⟨⟨forall_lt_append_single hr hpc, hp⟩, Or.inl hpc, fun _ _ => hpc⟩
    · have hs : sub32 fin bgn = fin - bgn := sub32_eq fin bgn hge (lt_trans hfin hc)
      have hpc : add32 bgn (sub32 fin bgn / 2) < c := by
        rw [hs, add32_eq _ _ (by omega)]
        omega
      have hne0 : add32 bgn (sub32 fin bgn / 2) ≠ 0 := by
        intro h0
        apply hend
        rw [h0]
        decide
      have hfc : sub32 (add32 bgn (sub32 fin bgn / 2)) 1 < c := by
        rw [sub32_eq _ 1 (by omega) (by omega)]
        omega
      have hres := ih bgn (sub32 (add32 bgn (sub32 fin bgn / 2)) 1)
        (add32 bgn (sub32 fin bgn / 2))
        { reads := tr.reads ++ [add32 bgn (sub32 fin bgn / 2)], puts := tr.puts
        , divs := tr.divs, completed := tr.completed, err := tr.err }
        hfc ⟨forall_lt_append_single hr hpc, hp⟩
      refine ⟨hres.1, ?_, fun _ _ => ?_⟩
      · rcases hres.2.1 with h | h
        · exact Or.inl h
        · exact Or.inl (h.trans_lt hpc)
      · rcases hres.2.1 with h | h
        · exact h
        · exact h.trans_lt hpc
    · exact ⟨⟨hr, hp⟩, Or.inr rfl, fun _ hble => absurd hble hge⟩

/-- The interpolation loop keeps `begin ≤ end < count` and reads only slots
in `[0, count)`. -/
theorem interpLoop_within (p : PageHeader) (key : Int) (c : Nat) (hc : c < MOD32) :
    ∀ quota bgn fin slb sup pi0 tr, bgn ≤ fin → fin < c → TraceWithin c tr →
      (interpLoop p key quota bgn fin slb sup pi0 tr).1
          ≤ (interpLoop p key quota bgn fin slb sup pi0 tr).2.1 ∧
      (interpLoop p key quota bgn fin slb sup pi0 tr).2.1 < c ∧
      TraceWithin c (interpLoop p key quota bgn fin slb sup pi0 tr).2.2.2 := by
  intro quota
  induction quota with
  | zero =>
    intro bgn fin slb sup pi0 tr hbf hfin htr
    exact ⟨hbf, hfin, htr⟩
  | succ quota ih =>
    intro bgn fin slb sup pi0 tr hbf hfin htr
    obtain ⟨hr, hp⟩ := htr
    simp only [interpLoop]
    split_ifs with hcut hin hlt
    · exact ⟨hbf, hfin, hr, hp⟩
    · obtain ⟨hgt, hltf⟩ := hin
      have hpic : toU32 (Int.tdiv ((key - slb) * (sub32 fin bgn : Nat)) (sup - slb)) < c :=
        lt_trans hltf hfin
      have hb1 : add32 (toU32 (Int.tdiv ((key - slb) * (sub32 fin bgn : Nat)) (sup - slb))) 1
          = toU32 (Int.tdiv ((key - slb) * (sub32 fin bgn : Nat)) (sup - slb)) + 1 :=
        add32_eq _ 1 (by omega)
      apply ih
      · rw [hb1]
        omega
      · exact hfin
      · rw [hb1]
        refine ⟨?_, hp⟩
        apply forall_lt_append_single (forall_lt_append_single hr hpic)
        omega
    · obtain ⟨hgt, hltf⟩ := hin
      have hpic : toU32 (Int.tdiv ((key - slb) * (sub32 fin bgn : Nat)) (sup - slb)) < c :=
        lt_trans hltf hfin
      have hf1 : sub32 (toU32 (Int.tdiv ((key - slb) * (sub32 fin bgn : Nat)) (sup - slb))) 1
          = toU32 (Int.tdiv ((key - slb) * (sub32 fin bgn : Nat)) (sup - slb)) - 1 :=
        sub32_eq _ 1 (by omega) (by omega)
      apply ih
      · rw [hf1]
        omega
      · rw [hf1]
        omega
      · rw [hf1]
        refine ⟨?_, hp⟩
        apply forall_lt_append_single (forall_lt_append_single hr hpic)
        omega
    · exact ⟨hbf, hfin, hr, hp⟩

/-- C2 (amended): for every validated query on a nonempty page, every
`page_index` slot that `search` reads or emits has index in `[0, count)` —
the whole index, not the synced prefix `[0, sync_index)`: `search` is
parameterized by `count` (page.cpp:320) and never consults `sync_index`,
so the unsorted tail is traversed as well (see the counterexample). -/
theorem c2_search_within_count (p : PageHeader) (q : QueryV) (fuel : Nat)
    (hq : validate_query q = true)
    (hc1 : 1 ≤ p.count) (hc2 : p.count < MOD32) :
    TraceWithin p.count (p.search q fuel) := by
  have hval : ¬ (validate_query q = false) := by
    rw [hq]
    exact fun h => Bool.noConfusion h
  have htr0 : TraceWithin p.count (⟨[], [], [], false, false⟩ : SearchTrace) := by
    refine ⟨?_, ?_⟩ <;> intro x hx <;> exact absurd hx (List.not_mem_nil x)
  have hmax : sub32 p.count 1 = p.count - 1 := sub32_eq p.count 1 hc1 hc2
  have hmaxlt : p.count - 1 < p.count := by omega
  by_cases hb : q.direction = AKU_CURSOR_DIR_BACKWARD
  · simp only [PageHeader.search, if_neg hval, if_pos hb, hmax]
    split_ifs with hbb hgt
    · have hI := interpLoop_within p q.upperbound p.count hc2 5 0 (p.count - 1)
          p.bbox.min_timestamp p.bbox.max_timestamp 0
          ⟨[], [], [], false, false⟩ (by omega) hmaxlt htr0
      generalize hG : interpLoop p q.upperbound 5 0 (p.count - 1)
          p.bbox.min_timestamp p.bbox.max_timestamp 0
          (⟨[], [], [], false, false⟩ : SearchTrace) = R
      rw [hG] at hI
      obtain ⟨b2, f2, pi2, tr2⟩ := R
      dsimp only at hI ⊢
      obtain ⟨hIle, hIlt, hItr⟩ := hI
      cases fuel with
      | zero => exact hItr
      | succ f =>
        obtain ⟨hbtr, hbd, hbin⟩ :=
          binLoop_within p q.upperbound p.count hc2 (f + 1) b2 f2 pi2 tr2 hIlt hItr
        exact traceWithin_scanBwd p q p.count hc2 (f + 1) _ _
          (hbin (by omega) hIle) hbtr
    · exact traceWithin_scanBwd p q p.count hc2 fuel _ _ hmaxlt htr0
    · exact ⟨htr0.1, htr0.2⟩
  · simp only [PageHeader.search, if_neg hval, if_neg hb, hmax]
    split_ifs with hbb hgt
    · have hI := interpLoop_within p q.lowerbound p.count hc2 5 0 (p.count - 1)
          p.bbox.min_timestamp p.bbox.max_timestamp 0
          ⟨[], [], [], false, false⟩ (by omega) hmaxlt htr0
      generalize hG : interpLoop p q.lowerbound 5 0 (p.count - 1)
          p.bbox.min_timestamp p.bbox.max_timestamp 0
          (⟨[], [], [], false, false⟩ : SearchTrace) = R
      rw [hG] at hI
      obtain ⟨b2, f2, pi2, tr2⟩ := R
      dsimp only at hI ⊢
      obtain ⟨hIle, hIlt, hItr⟩ := hI
      cases fuel with
      | zero => exact hItr
      | succ f =>
        obtain ⟨hbtr, hbd, hbin⟩ :=
          binLoop_within p q.lowerbound p.count hc2 (f + 1) b2 f2 pi2 tr2 hIlt hItr
        apply traceWithin_scanFwd p q (p.count - 1) p.count hmaxlt hc2 (f + 1) _ _
          ?_ hbtr
        have := hbin (by omega) hIle
        omega
    · exact ⟨htr0.1, htr0.2⟩
    · exact traceWithin_scanFwd p q (p.count - 1) p.count hmaxlt hc2 fuel _ _
        (by omega) htr0


/-- Closed instantiation of `c2_search_within_count` at the synced
three-entry page and the validated point query. -/
theorem c2_witness :
    TraceWithin pageDup3s.count (pageDup3s.search queryDup 100) :=
  c2_search_within_count pageDup3s queryDup 100 (by decide) (by decide) (by decide)

/-- C1: FALSIFIED (code bug).  On a page holding three entries with
`param_id = 7`, `timestamp = 5` — all inside the synced prefix
(`sync_index = 3`) — the validated forward query `{param 7, [5,5]}` emits
only the offsets of slots 1 and 2; the qualifying entry at slot 0 (offset
4079) is omitted, because the binary search lands in the middle of the run
of equal timestamps and the scan never walks backwards. -/
theorem c1_search_omits_synced_duplicate :
    validate_query queryDup = true ∧
    pageDup3s.count = 3 ∧ pageDup3s.sync_index = 3 ∧
    pageDup3s.page_index 0 = 4079 ∧
    (pageDup3s.mem 4079).param_id = queryDup.param ∧
    queryDup.lowerbound ≤ (pageDup3s.mem 4079).time ∧
    (pageDup3s.mem 4079).time ≤ queryDup.upperbound ∧
    (pageDup3s.search queryDup 100).puts.map Prod.snd = [4063, 4047] ∧
    (pageDup3s.search queryDup 100).completed = true ∧
    4079 ∉ (pageDup3s.search queryDup 100).puts.map Prod.snd := by
  decide

/-- C3: FALSIFIED (code bug).  `Storage::search` (storage.cpp:446-447) has
an empty body: it creates no per-volume cursors and runs no page search, so
the caller's cursor is returned untouched — even though the single volume's
page search would emit results for the same query. -/
theorem c3_storage_search_is_a_stub :
    storageSearch storOne cursor0 = cursor0 ∧
    (pageDup3s.search queryDup 100).puts ≠ [] := by
  exact ⟨rfl, by decide⟩

/-- C8: FALSIFIED (code bug).  Starting from the documented mid-rotation
crash state (volume 0 closed with `open_count = close_count = 1`, volume 1
never opened), `select_active_page` picks volume 0, sees
`close_count == open_count`, and calls `advance_volume_`, which closes
volume 0 a second time: afterwards `open_count = 1 < close_count = 2`. -/
theorem c8_startup_recovery_double_close :
    (storC8after.volumes.getD 0 dfltPage).open_count = 1 ∧
    (storC8after.volumes.getD 0 dfltPage).close_count = 2 ∧
    ¬ (storC8after.volumes.getD 0 dfltPage).close_count ≤
        (storC8after.volumes.getD 0 dfltPage).open_count := by
  refine ⟨rfl, rfl, by decide⟩

/-- C9: FALSIFIED (code bug).  On an empty page (`count = 0`) the validated
forward query `{param 7, [0,0]}` takes the `key < bbox.min` shortcut to the
scan phase with `probe_index = 0` and reads `page_index[0]` (and further
slots) even though no slot of the index is valid. -/
theorem c9_empty_page_search_reads_index :
    page4096.count = 0 ∧
    validate_query queryEmpty = true ∧
    (page4096.search queryEmpty 2).reads = [0, 1] := by
  decide

/-- C10: FALSIFIED (code bug).  On a page whose 65 synced entries all carry
timestamp 42, the validated forward query with key 42 enters the
interpolation loop (`end - begin = 64` is not below the cutoff) and
evaluates the probe expression with divisor
`search_upper_bound - search_lower_bound = 42 - 42 = 0`. -/
theorem c10_interpolation_divides_by_zero :
    page65.count = 65 ∧
    (∀ i < 65, (page65.mem (page65.page_index i)).time = 42) ∧
    validate_query query42 = true ∧
    (page65.search query42 200).divs = [0] := by
  decide

end Akumuli
